import Mathlib

/-!
# Verification of the zkidp/trading decision pipeline

Shallow embedding of the core of the repository:

* `app/processors/ai_analyzer.py` — response normalization and batching
* `app/broker/executor.py`        — broker connect guard
* `app/db/execution.py`           — execution audit table access
* `app/main.py`                   — risk gate and execution coordinator
* `app/evaluate.py`               — outcome evaluator and session alignment

Python machine floats are modelled as rationals (`ℚ`), timestamps as
integers (seconds since the UTC epoch), calendar dates as integers
(days).  External services (the DeepSeek analysis endpoint, the IB
broker, the NYSE calendar from `pandas_market_calendars`, yfinance
close prices, the `zoneinfo` America/New_York offset) are modelled as
explicit oracle parameters; the definitions below embed how the
repository's own code reacts to every possible oracle answer.
-/

namespace Trading

/-! ## Python string primitives

`str.strip()` (no argument) removes ASCII whitespace from both ends;
the Unicode-only whitespace code points are irrelevant to the strings
this program handles.  `str.upper()` / `str.lower()` are modelled on
the ASCII range, which is exact for ticker symbols and mode strings. -/

def isPyWhitespace (c : Char) : Bool :=
  c = ' ' || c = '\t' || c = '\n' || c = '\r' || c = '\x0b' || c = '\x0c'

def pyStrip (s : String) : String :=
  ⟨((s.data.dropWhile isPyWhitespace).reverse.dropWhile isPyWhitespace).reverse⟩

def pyUpper (s : String) : String :=
  ⟨s.data.map Char.toUpper⟩

def pyLower (s : String) : String :=
  ⟨s.data.map Char.toLower⟩

/-- Python truthiness-based `or` on optional strings:
`a or b` yields `b` when `a` is `None` or the empty string. -/
def pyOrStr (a b : Option String) : Option String :=
  match a with
  | none => b
  | some s => if s = "" then b else some s

/-! ## JSON values

The parsed form of one element of the analyzer's response array
(`json.loads` output restricted to one element). -/

inductive Json where
  | null
  | bool (b : Bool)
  | num (q : ℚ)
  | str (s : String)
  | arr (elems : List Json)
  | obj (fields : List (String × Json))

/-- `dict.get(key)` on a parsed JSON object: `none` when absent. -/
def jsonGet (fields : List (String × Json)) (k : String) : Option Json :=
  (fields.find? (fun p => p.1 == k)).map (fun p => p.2)

def Json.isObj : Json → Bool
  | .obj _ => true
  | _ => false

/-! ## Ticker normalization (`app/processors/ai_analyzer.py`)

`_TICKER_RE = re.compile(r"^[A-Z]{1,6}([.-][A-Z]{1,4})?$")`.

Because the head run `[A-Z]{1,6}` is followed either by the end of the
string or by a separator that is not an uppercase letter, the regex
matches exactly when the maximal uppercase-letter prefix has length
1..6 and the remainder is either empty or one of `.`/`-` followed by
1..4 uppercase letters and nothing else; `tickerReMatch` decides that
characterization directly. -/

def isUpperAlpha (c : Char) : Bool :=
  'A' ≤ c && c ≤ 'Z'

def tickerReMatch (s : String) : Bool :=
  let head := s.data.takeWhile isUpperAlpha
  let rest := s.data.dropWhile isUpperAlpha
  (1 ≤ head.length && head.length ≤ 6) &&
    (match rest with
     | [] => true
     | c :: tail =>
         (c = '.' || c = '-') && (1 ≤ tail.length && tail.length ≤ 4)
           && tail.all isUpperAlpha)

/-- The spec's wording of the accepted ticker shape: 1–6 uppercase
letters, optionally followed by `.` or `-` and 1–4 uppercase letters.
Stated independently of `tickerReMatch` so the two can be compared. -/
def specTickerPattern (s : String) : Prop :=
  ∃ a : List Char,
    (1 ≤ a.length ∧ a.length ≤ 6 ∧ ∀ x ∈ a, isUpperAlpha x) ∧
    (s.data = a ∨
      ∃ (c : Char) (b : List Char),
        (c = '.' ∨ c = '-') ∧ s.data = a ++ c :: b ∧
        1 ≤ b.length ∧ b.length ≤ 4 ∧ ∀ x ∈ b, isUpperAlpha x)

/-- `_normalize_ticker`: `None`/non-string values are rejected, strings
are stripped and uppercased, then matched against `_TICKER_RE`. -/
def normalizeTicker (v : Option Json) : Option String :=
  match v with
  | none => none
  | some Json.null => none
  | some (Json.str s) =>
      let s1 := pyUpper (pyStrip s)
      if s1 = "" then none
      else if !tickerReMatch s1 then none
      else some s1
  | some _ => none

/-! ## Sentiment, summary and risk-tag normalization -/

/-- `_clamp(x, lo, hi) = max(lo, min(hi, x))`. -/
def clamp (x lo hi : ℚ) : ℚ :=
  max lo (min hi x)

/-- Model of Python's `float(str)` on plain decimal literals
(optional sign, digits, optional single decimal point).  Exponent,
`inf`/`nan` and underscore forms are out of scope; no claim depends
on them. -/
def pyFloatOfString (s : String) : Option ℚ :=
  let cs := (pyStrip s).data
  let core := match cs with
    | '-' :: t => some (true, t)
    | '+' :: t => some (false, t)
    | t => some (false, t)
  match core with
  | none => none
  | some (neg, body) =>
      let intPart := body.takeWhile Char.isDigit
      let rest := body.dropWhile Char.isDigit
      let digitsVal : List Char → Nat :=
        fun l => l.foldl (fun acc c => acc * 10 + (c.toNat - '0'.toNat)) 0
      let signed : ℚ → ℚ := fun q => if neg then -q else q
      match rest with
      | [] =>
          if intPart = [] then none
          else some (signed (digitsVal intPart))
      | '.' :: frac =>
          if frac.all Char.isDigit ∧ (intPart ≠ [] ∨ frac ≠ []) then
            some (signed ((digitsVal intPart : ℚ) +
              (digitsVal frac : ℚ) / ((10 : ℚ) ^ frac.length)))
          else none
      | _ => none

/-- Python `float(v)` over a JSON field value: numbers convert, bools
convert via their int value, numeric strings parse, everything else
(including `None`/absent) raises — which `_normalize_sentiment`
turns into `0.0`. -/
def pyFloatOfJson (v : Option Json) : Option ℚ :=
  match v with
  | some (Json.num q) => some q
  | some (Json.bool b) => some (if b then 1 else 0)
  | some (Json.str s) => pyFloatOfString s
  | _ => none

/-- `_normalize_sentiment`: coerce to float, `0.0` on failure,
clamp to `[-1, 1]`. -/
def normalizeSentiment (v : Option Json) : ℚ :=
  match pyFloatOfJson v with
  | none => 0
  | some f => clamp f (-1) 1

/-- `_normalize_summary`: non-strings become `""`; strings are
stripped and truncated to 60 characters. -/
def normalizeSummary (v : Option Json) : String :=
  match v with
  | some (Json.str s) => (pyStrip s).take 60
  | _ => ""

/-- `_normalize_risk_tags`: non-arrays become `[]`; non-string
elements are dropped; string elements are stripped and dropped if
empty. -/
def normalizeRiskTags (v : Option Json) : List String :=
  match v with
  | some (Json.arr l) =>
      l.filterMap (fun j =>
        match j with
        | Json.str x =>
            let t := pyStrip x
            if t = "" then none else some t
        | _ => none)
  | _ => []

/-- `AnalyzedItem` dataclass. -/
structure AnalyzedItem where
  ticker : Option String
  sentiment : ℚ
  summary : String
  riskTags : List String
deriving DecidableEq

/-- Per-element normalization in `_analyze_batch`: a non-object
element is replaced by the empty dict before the field lookups. -/
def normalizeElement (j : Json) : AnalyzedItem :=
  let fields := match j with
    | Json.obj f => f
    | _ => []
  { ticker := normalizeTicker (jsonGet fields "ticker")
    sentiment := normalizeSentiment (jsonGet fields "sentiment")
    summary := normalizeSummary (jsonGet fields "summary")
    riskTags := normalizeRiskTags (jsonGet fields "risk_tags") }

/-! ## Batching (`AIAnalyzer.analyze_titles`)

`for i in range(0, len(titles), batch_size): batch = titles[i:i+bs]`.
The external call together with `_parse_json_array` is modelled by an
oracle `List String → Except String (List Json)`: an `Except.error`
stands for an API exception, a non-JSON reply, or a reply that is not
an array (the tenacity retry re-raises the final failure, so only the
final outcome matters).  `batch_size = 0` would make Python's `range`
raise; the model returns `[]` and all theorems assume `0 < bs`. -/

def chunks (bs : Nat) : List α → List (List α)
  | [] => []
  | x :: xs =>
      if _h : bs = 0 then []
      else (x :: xs).take bs :: chunks bs ((x :: xs).drop bs)
termination_by l => l.length
decreasing_by
  simp [List.length_drop]
  omega

/-- `AIAnalyzer._analyze_batch` after the external call: parse failure
or a length mismatch raises; otherwise every element is normalized. -/
def analyzeBatchModel (oracle : List String → Except String (List Json))
    (titles : List String) : Except String (List AnalyzedItem) :=
  match oracle titles with
  | Except.error e => Except.error e
  | Except.ok parsed =>
      if parsed.length ≠ titles.length then
        Except.error "DeepSeek output length mismatch"
      else
        Except.ok (parsed.map normalizeElement)

/-- The contribution of one batch to the overall output: a failed
batch is skipped (contributes nothing), a successful one contributes
its items. -/
def batchContribution (oracle : List String → Except String (List Json))
    (titles : List String) : List AnalyzedItem :=
  match analyzeBatchModel oracle titles with
  | Except.error _ => []
  | Except.ok items => items

/-- `AIAnalyzer.analyze_titles`: process the fixed-size batches in
order, skipping failed batches and continuing with the rest. -/
def analyzeTitles (oracle : List String → Except String (List Json))
    (bs : Nat) (titles : List String) : List AnalyzedItem :=
  (chunks bs titles).foldr (fun b acc => batchContribution oracle b ++ acc) []

/-! ## Broker connect guard (`app/broker/executor.py`)

`IBExecutor.connect` reads `TRADING_MODE` (default `"paper"`), strips
and lowercases it, and raises unless the result is `"paper"`; only
then is the IB session opened.  `self._dry_run` is not consulted.
The network connect (`ib.connectAsync`) is an oracle: `Except.ok`
yields a session, `Except.error` is a raised exception (timeouts
included). -/

def connectGuard (tradingModeEnv : Option String) : Except String Unit :=
  let tradingMode := tradingModeEnv.getD "paper"
  if pyLower (pyStrip tradingMode) ≠ "paper" then
    Except.error ("TRADING_MODE must be paper, got " ++ tradingMode)
  else
    Except.ok ()

def ibConnect (tradingModeEnv : Option String) (dryRun : Bool)
    (connectAsync : Except String Unit) : Except String Unit :=
  match connectGuard tradingModeEnv with
  | Except.error m => Except.error m
  | Except.ok _ =>
      -- dry_run is deliberately not consulted here (hard safety check).
      let _ := dryRun
      connectAsync

/-! ## Execution phase (`app/main.py`, step 6/7)

The broker interaction of one approved run.  The oracle fixes the
outcome of each external step: the IB connect, the best-effort
account/position snapshot (whose exception is caught locally and kept
as `snapshot_err`), the `buy_fractional_by_amount` call, and the
`disconnect` performed by `IBExecutor.__aexit__` (a `some msg` means
disconnect raised with that message).  Python semantics that matter:

* if `connect` raises inside `__aenter__`, the `async with` body and
  `__aexit__` never run;
* if the body raises, `__aexit__` still runs, and an exception raised
  by `disconnect` replaces the body's exception;
* the `finally` block always inserts exactly one `TradeExecution` row
  with `error = error or snapshot_err` (Python `or`, so an empty
  error message falls through to the snapshot error). -/

structure BuyResult where
  ticker : String
  amountUsd : ℚ
  price : ℚ
  qty : ℚ
  dryRun : Bool
  orderStatus : Option String
deriving DecidableEq

structure BrokerOracle where
  connectAsync : Except String Unit
  snapshot : Except String Unit
  buy : Except String BuyResult
  disconnect : Option String

/-- The `snapshot_err` local of `_async_main`: the message of the
exception caught around the best-effort snapshot, if any. -/
def snapErrOf (o : BrokerOracle) : Option String :=
  match o.snapshot with
  | Except.ok _ => none
  | Except.error m => some m

/-- One row of the `trade_execution` audit table
(`app/db/models.py`, inserted by `insert_execution`). -/
structure ExecRow where
  ticker : String
  amountUsd : ℚ
  price : Option ℚ
  qty : Option ℚ
  dryRun : Bool
  orderStatus : Option String
  error : Option String
  createdAt : Nat
deriving DecidableEq

/-- `count_executions_since`: `SELECT count(*) WHERE created_at >= start`. -/
def countExecutionsSince (db : List ExecRow) (startUtc : Nat) : Nat :=
  (db.filter (fun r => startUtc ≤ r.createdAt)).length

/-- `now_utc.replace(hour=0, minute=0, second=0, microsecond=0)` on a
UTC datetime: floor the timestamp to the start of its UTC day. -/
def pyDayStartUtc (t : Nat) : Nat :=
  t / 86400 * 86400

/-- The broker interaction of `_async_main` (main.py lines 270–321):
returns the new state of the `trade_execution` table.  Exactly the
`try/except/finally` structure of the source, with the snapshot
exception caught locally. -/
def runExecutionPhase (tradingModeEnv : Option String) (o : BrokerOracle)
    (ticker : String) (amountUsd : ℚ) (dryRun : Bool) (nowUtc : Nat)
    (db : List ExecRow) : List ExecRow :=
  match ibConnect tradingModeEnv dryRun o.connectAsync with
  | Except.error m =>
      -- `__aenter__` raised: no snapshot, no buy, no disconnect.
      db ++ [{ ticker := ticker, amountUsd := amountUsd, price := none,
               qty := none, dryRun := dryRun, orderStatus := none,
               error := pyOrStr (some m) none, createdAt := nowUtc }]
  | Except.ok _ =>
      let snapshotErr : Option String := snapErrOf o
      match o.buy with
      | Except.ok r =>
          -- body succeeded; disconnect may still raise.
          db ++ [{ ticker := ticker, amountUsd := amountUsd,
                   price := some r.price, qty := some r.qty,
                   dryRun := dryRun, orderStatus := r.orderStatus,
                   error := pyOrStr o.disconnect snapshotErr,
                   createdAt := nowUtc }]
      | Except.error bm =>
          -- body raised; a raising disconnect replaces the message.
          let finalMsg := match o.disconnect with
            | some dm => dm
            | none => bm
          db ++ [{ ticker := ticker, amountUsd := amountUsd, price := none,
                   qty := none, dryRun := dryRun, orderStatus := none,
                   error := pyOrStr (some finalMsg) snapshotErr,
                   createdAt := nowUtc }]

/-- Steps 6/7 of `_async_main` from the Top1 check onward: threshold
check, daily-cap check against the persisted table, then the
execution phase.  The returned `Bool` records whether the broker step
was entered.  `nowUtc` models the fresh `_utc_now()` read at
main.py line 251. -/
def runTradePhase (tradingModeEnv : Option String) (o : BrokerOracle)
    (top1Ticker : Option String) (top1Score minSent : ℚ) (maxDailyTrades : Int)
    (amountUsd : ℚ) (dryRun : Bool) (nowUtc : Nat) (db : List ExecRow) :
    List ExecRow × Bool :=
  match top1Ticker with
  | none => (db, false)
  | some tk =>
      if top1Score < minSent then (db, false)
      else
        let dayStart := pyDayStartUtc nowUtc
        let tradesToday := countExecutionsSince db dayStart
        if maxDailyTrades ≤ (tradesToday : Int) then (db, false)
        else (runExecutionPhase tradingModeEnv o tk amountUsd dryRun nowUtc db, true)

/-! ## Day-start computations (`app/main.py` lines 199–200 and 251–252)

The signal-selection day start and the daily-cap day start are each
computed from a fresh `_utc_now()` read; `clock n` is the value of the
n-th of these two reads. -/

def selectionDayStart (clock : Nat → Nat) : Nat :=
  pyDayStartUtc (clock 0)

def capDayStart (clock : Nat → Nat) : Nat :=
  pyDayStartUtc (clock 1)

/-! ## Outcome evaluator (`app/evaluate.py`)

Dates are integers (days since the Unix epoch), timestamps integers
(seconds).  External data enters through three oracles:

* `cal : Int → Bool` — whether a date is an NYSE trading session
  (`pandas_market_calendars`); `_trading_sessions(a, b)` is the
  ordered list of session dates in `[a, b]`;
* `close : String → Int → Option ℚ` — the yfinance daily close per
  symbol and session (`none` = missing; the whole-series download
  failure of `_load_close_series` is subsumed pointwise);
* `tzOffset : Int → Int` — the America/New_York UTC offset in seconds
  at a given instant (`zoneinfo` data), used by
  `_to_et_session_date`. -/

structure OutcomePrices where
  entryClose : ℚ
  t3Close : ℚ
  t7Close : ℚ
  spyEntryClose : ℚ
  spyT3Close : ℚ
  spyT7Close : ℚ
deriving DecidableEq

/-- `_trading_sessions(start, end)`: the session dates in the closed
range `[a, b]`, in ascending order. -/
def tradingSessions (cal : Int → Bool) (a b : Int) : List Int :=
  ((List.range (b + 1 - a).toNat).map (fun (k : Nat) => a + (k : Int))).filter cal

/-- `_to_et_session_date`: convert a UTC timestamp to its
America/New_York calendar date. -/
def toEtSessionDate (tzOffset : Int → Int) (tsUtc : Int) : Int :=
  (tsUtc + tzOffset tsUtc).fdiv 86400

/-- `compute_outcome_prices`: build the session window, advance a
non-session entry date to the next session (raising if there is
none), index `T+3`/`T+7` (an out-of-range index raises, as Python
list indexing does), then pick the six closes (a missing close
raises in `_pick_close` / `_load_close_series`). -/
def computeOutcomePrices (cal : Int → Bool) (close : String → Int → Option ℚ)
    (entrySession0 : Int) (symbol : String) : Except String OutcomePrices :=
  let sessions := tradingSessions cal (entrySession0 - 7) (entrySession0 + 20)
  let entry? : Option Int :=
    if sessions.contains entrySession0 then some entrySession0
    else (sessions.filter (fun s => entrySession0 < s)).head?
  match entry? with
  | none => Except.error "no next trading session"
  | some entrySession =>
      let idx := sessions.indexOf entrySession
      match sessions[idx + 3]?, sessions[idx + 7]? with
      | some t3, some t7 =>
          match close symbol entrySession, close symbol t3, close symbol t7,
                close "SPY" entrySession, close "SPY" t3, close "SPY" t7 with
          | some a, some b, some c, some d, some e, some f =>
              Except.ok ⟨a, b, c, d, e, f⟩
          | _, _, _, _, _, _ => Except.error "missing close price"
      | _, _ => Except.error "IndexError: list index out of range"

/-- `_ret(a, b) = b / a - 1`. -/
def simpleReturn (a b : ℚ) : ℚ :=
  b / a - 1

/-- One row of the `trade_execution` table as read by the evaluator. -/
structure ExecRec where
  id : Nat
  createdAt : Int
  ticker : String
deriving DecidableEq

/-- One row of the `trade_outcome` table (`app/db/models.py`);
`trade_execution_id` carries a UNIQUE constraint. -/
structure OutcomeRec where
  execId : Nat
  ticker : String
  entrySession : Int
  entryClose : ℚ
  t3Close : ℚ
  t7Close : ℚ
  t3Return : ℚ
  t7Return : ℚ
  spyT3Return : ℚ
  spyT7Return : ℚ
  computedAt : Int
deriving DecidableEq

/-- Insert honouring the UNIQUE constraint on `trade_execution_id`:
a duplicate key makes the commit raise, the per-execution handler
catches it and moves on, so the table is unchanged. -/
def insertOutcomeUnique (outs : List OutcomeRec) (o : OutcomeRec) :
    List OutcomeRec :=
  if outs.any (fun x => x.execId == o.execId) then outs else outs ++ [o]

/-- The candidate query of `evaluate._async_main`: executions older
than the two-day buffer that have no outcome yet, first 50 in the
stored (created_at ascending) order of `execs`. -/
def evalCandidates (execs : List ExecRec) (outs : List OutcomeRec)
    (nowUtc : Int) : List ExecRec :=
  let cutoff := nowUtc - 2 * 86400
  ((execs.filter (fun e =>
      decide (e.createdAt ≤ cutoff) &&
        !(outs.any (fun o => o.execId == e.id)))).take 50)

/-- The per-execution body of the evaluator loop: compute the entry
session from the ET date of the execution, compute the prices, and
either insert one outcome row or (on any failure) leave the table
unchanged and continue with the next execution. -/
def evalStep (cal : Int → Bool) (close : String → Int → Option ℚ)
    (tzOffset : Int → Int) (nowUtc : Int) (outs : List OutcomeRec)
    (e : ExecRec) : List OutcomeRec :=
  match computeOutcomePrices cal close (toEtSessionDate tzOffset e.createdAt)
      e.ticker with
  | Except.error _ => outs
  | Except.ok p =>
      insertOutcomeUnique outs
        { execId := e.id
          ticker := e.ticker
          entrySession := toEtSessionDate tzOffset e.createdAt
          entryClose := p.entryClose
          t3Close := p.t3Close
          t7Close := p.t7Close
          t3Return := simpleReturn p.entryClose p.t3Close
          t7Return := simpleReturn p.entryClose p.t7Close
          spyT3Return := simpleReturn p.spyEntryClose p.spyT3Close
          spyT7Return := simpleReturn p.spyEntryClose p.spyT7Close
          computedAt := nowUtc }

/-- One run of `evaluate._async_main` over the stored tables. -/
def evalRun (cal : Int → Bool) (close : String → Int → Option ℚ)
    (tzOffset : Int → Int) (nowUtc : Int) (execs : List ExecRec)
    (outs : List OutcomeRec) : List OutcomeRec :=
  (evalCandidates execs outs nowUtc).foldl
    (fun acc e => evalStep cal close tzOffset nowUtc acc e) outs

/-! ## Concrete instances used to exercise the models -/

/-- A run whose two `_utc_now()` reads straddle UTC midnight:
the selection-phase read is at 23:59:59 of day 0, the cap-phase read
two seconds later. -/
def midnightClock : Nat → Nat := fun n => if n = 0 then 86399 else 86401

def buyResultEx : BuyResult :=
  { ticker := "NVDA", amountUsd := 40, price := 5, qty := 8,
    dryRun := true, orderStatus := none }

/-- All broker steps succeed. -/
def brokerAllOk : BrokerOracle :=
  { connectAsync := Except.ok (), snapshot := Except.ok (),
    buy := Except.ok buyResultEx, disconnect := none }

/-- The buy raises an exception whose `str()` is empty (for example
`asyncio.TimeoutError()`); everything else succeeds. -/
def brokerEmptyMsg : BrokerOracle :=
  { connectAsync := Except.ok (), snapshot := Except.ok (),
    buy := Except.error "", disconnect := none }

/-- The best-effort snapshot raises, the buy succeeds. -/
def brokerSnapFail : BrokerOracle :=
  { connectAsync := Except.ok (), snapshot := Except.error "snapshot boom",
    buy := Except.ok buyResultEx, disconnect := none }

/-- A `trade_execution` table holding one row written earlier today
(timestamps within UTC day 0). -/
def dbOneToday : List ExecRow :=
  [{ ticker := "AAPL", amountUsd := 40, price := some 10, qty := some 4,
     dryRun := true, orderStatus := none, error := none, createdAt := 50000 }]

/-- Analysis oracle answering every batch with a single non-object
element. -/
def oracleNonObject : List String → Except String (List Json) :=
  fun _ => Except.ok [Json.num 5]

/-- Analysis oracle failing exactly on batches containing "t1" and
answering other batches elementwise. -/
def oracleFailFirst : List String → Except String (List Json) :=
  fun ts =>
    if ts.contains "t1" then Except.error "unparseable"
    else Except.ok (ts.map (fun _ => Json.obj []))

/-- Every date is an NYSE session; every close is 1. -/
def calAlwaysOpen : Int → Bool := fun _ => true

def closeAllOne : String → Int → Option ℚ := fun _ _ => some 1

/-- No session data, no close data. -/
def calNeverOpen : Int → Bool := fun _ => false

def closeNone : String → Int → Option ℚ := fun _ _ => none

/-- Fixed EST offset (UTC−5 h), the America/New_York offset on the
dates used in the witnesses. -/
def tzEst : Int → Int := fun _ => -18000

def execRecEx : ExecRec := { id := 1, createdAt := 0, ticker := "NVDA" }

/-! ## Supporting lemmas -/

theorem takeWhile_append_all {p : Char → Bool} (a : List Char) (c : Char)
    (b : List Char) (ha : ∀ x ∈ a, p x = true) (hc : p c = false) :
    (a ++ c :: b).takeWhile p = a ∧ (a ++ c :: b).dropWhile p = c :: b := by
  induction a with
  | nil => simp [List.takeWhile, List.dropWhile, hc]
  | cons x xs ih =>
      have hx : p x = true := ha x (by simp)
      have hxs := ih (fun y hy => ha y (by simp [hy]))
      simp [List.takeWhile, List.dropWhile, hx, hxs.1, hxs.2]

theorem takeWhile_all {p : Char → Bool} (a : List Char)
    (ha : ∀ x ∈ a, p x = true) :
    a.takeWhile p = a ∧ a.dropWhile p = [] := by
  induction a with
  | nil => simp
  | cons x xs ih =>
      have hx : p x = true := ha x (by simp)
      have hxs := ih (fun y hy => ha y (by simp [hy]))
      simp [List.takeWhile, List.dropWhile, hx, hxs.1, hxs.2]

theorem mem_takeWhile_sat {p : Char → Bool} :
    ∀ (l : List Char), ∀ x ∈ l.takeWhile p, p x = true := by
  intro l
  induction l with
  | nil => simp
  | cons y ys ih =>
      intro x hx
      by_cases hy : p y = true
      · rw [List.takeWhile_cons, if_pos hy] at hx
        rcases List.mem_cons.mp hx with h | h
        · exact h ▸ hy
        · exact ih x h
      · rw [List.takeWhile_cons, if_neg hy] at hx
        exact absurd hx (List.not_mem_nil x)

/-- `tickerReMatch` decides exactly the spec's pattern. -/
theorem tickerReMatch_iff_spec (s : String) :
    tickerReMatch s = true ↔ specTickerPattern s := by
  constructor
  · intro h
    unfold tickerReMatch at h
    simp only [Bool.and_eq_true, decide_eq_true_eq] at h
    obtain ⟨⟨h1, h2⟩, h3⟩ := h
    refine ⟨s.data.takeWhile isUpperAlpha,
      ⟨by simpa using h1, by simpa using h2, mem_takeWhile_sat s.data⟩, ?_⟩
    rcases hrest : s.data.dropWhile isUpperAlpha with _ | ⟨c, tail⟩
    · left
      have := List.takeWhile_append_dropWhile isUpperAlpha s.data
      rw [hrest] at this
      simpa using this.symm
    · right
      rw [hrest] at h3
      simp only [Bool.and_eq_true, Bool.or_eq_true, decide_eq_true_eq,
        List.all_eq_true] at h3
      obtain ⟨⟨hc, ht1, ht2⟩, htall⟩ := h3
      refine ⟨c, tail, hc, ?_, ht1, ht2, htall⟩
      have := List.takeWhile_append_dropWhile isUpperAlpha s.data
      rw [hrest] at this
      exact this.symm
  · rintro ⟨a, ⟨ha1, ha2, ha3⟩, hshape⟩
    unfold tickerReMatch
    rcases hshape with heq | ⟨c, b, hc, heq, hb1, hb2, hb3⟩
    · have hta := takeWhile_all a ha3
      rw [heq, hta.1, hta.2]
      simp [ha1, ha2]
    · have hcfalse : isUpperAlpha c = false := by
        rcases hc with rfl | rfl <;> decide
      have hta := takeWhile_append_all a c b ha3 hcfalse
      rw [heq, hta.1, hta.2]
      simp only [Bool.and_eq_true, Bool.or_eq_true, decide_eq_true_eq,
        List.all_eq_true]
      exact ⟨⟨ha1, ha2⟩, ⟨⟨hc, ⟨hb1, hb2⟩⟩, hb3⟩⟩

theorem tickerReMatch_empty : tickerReMatch "" = false := by
  decide

theorem analyzeBatchModel_ok_length
    (o : List String → Except String (List Json)) (b : List String)
    (items : List AnalyzedItem)
    (h : analyzeBatchModel o b = Except.ok items) :
    items.length = b.length := by
  unfold analyzeBatchModel at h
  cases ho : o b with
  | error e =>
      rw [ho] at h
      have h2 : (Except.error e : Except String (List AnalyzedItem)) =
          Except.ok items := h
      exact absurd h2 (by simp)
  | ok parsed =>
      rw [ho] at h
      have h2 : (if parsed.length ≠ b.length then
          (Except.error "DeepSeek output length mismatch" :
            Except String (List AnalyzedItem))
          else Except.ok (parsed.map normalizeElement)) = Except.ok items := h
      by_cases hl : parsed.length ≠ b.length
      · rw [if_pos hl] at h2
        exact absurd h2 (by simp)
      · rw [if_neg hl] at h2
        injection h2 with hi
        subst hi
        push_neg at hl
        simp [hl]

theorem batchContribution_length
    (o : List String → Except String (List Json)) (b : List String) :
    (batchContribution o b).length = 0 ∨
      (batchContribution o b).length = b.length := by
  unfold batchContribution
  cases h : analyzeBatchModel o b with
  | error e => simp
  | ok items => exact Or.inr (analyzeBatchModel_ok_length o b items h)

theorem foldr_contribution_length_le
    (o : List String → Except String (List Json)) :
    ∀ bss : List (List String),
      (bss.foldr (fun b acc => batchContribution o b ++ acc) []).length ≤
        (bss.foldr (fun b acc => b ++ acc) []).length := by
  intro bss
  induction bss with
  | nil => simp
  | cons b rest ih =>
      simp only [List.foldr_cons, List.length_append]
      rcases batchContribution_length o b with h | h <;> omega

theorem chunks_flatten (bs : Nat) (hbs : 0 < bs) (l : List String) :
    (chunks bs l).foldr (fun b acc => b ++ acc) [] = l := by
  generalize hn : l.length = n
  induction n using Nat.strong_induction_on generalizing l with
  | _ n ih =>
      cases l with
      | nil => simp [chunks]
      | cons x xs =>
          rw [chunks]
          rw [dif_neg (Nat.pos_iff_ne_zero.mp hbs)]
          simp only [List.foldr_cons]
          have hlt : ((x :: xs).drop bs).length < n := by
            simp only [List.length_drop]
            subst hn
            simp only [List.length_cons]
            omega
          rw [ih ((x :: xs).drop bs).length hlt ((x :: xs).drop bs) rfl,
            List.take_append_drop]

theorem insertOutcomeUnique_nodup (outs : List OutcomeRec) (o : OutcomeRec)
    (h : (outs.map (fun x => x.execId)).Nodup) :
    ((insertOutcomeUnique outs o).map (fun x => x.execId)).Nodup := by
  unfold insertOutcomeUnique
  by_cases hmem : outs.any (fun x => x.execId == o.execId) = true
  · rw [if_pos hmem]
    exact h
  · rw [if_neg hmem]
    rw [List.map_append]
    apply List.Nodup.append h (List.nodup_singleton _)
    intro a ha hb
    rw [List.any_eq_true] at hmem
    push_neg at hmem
    obtain ⟨x, hx, hxa⟩ := List.mem_map.mp ha
    simp only [List.map_cons, List.map_nil, List.mem_singleton] at hb
    apply hmem x hx
    rw [beq_iff_eq, hxa, hb]

theorem evalStep_nodup (cal : Int → Bool) (close : String → Int → Option ℚ)
    (tzOffset : Int → Int) (nowUtc : Int) (outs : List OutcomeRec)
    (e : ExecRec) (h : (outs.map (fun x => x.execId)).Nodup) :
    ((evalStep cal close tzOffset nowUtc outs e).map
      (fun x => x.execId)).Nodup := by
  unfold evalStep
  cases hc : computeOutcomePrices cal close
      (toEtSessionDate tzOffset e.createdAt) e.ticker with
  | error m => exact h
  | ok p => exact insertOutcomeUnique_nodup _ _ h

theorem foldl_evalStep_nodup (cal : Int → Bool)
    (close : String → Int → Option ℚ) (tzOffset : Int → Int) (nowUtc : Int)
    (cands : List ExecRec) :
    ∀ outs : List OutcomeRec, (outs.map (fun x => x.execId)).Nodup →
      ((cands.foldl (fun acc e => evalStep cal close tzOffset nowUtc acc e)
        outs).map (fun x => x.execId)).Nodup := by
  induction cands with
  | nil => intro outs h; exact h
  | cons e rest ih =>
      intro outs h
      exact ih _ (evalStep_nodup cal close tzOffset nowUtc outs e h)

theorem insertOutcomeUnique_mem_eq (acc : List OutcomeRec)
    (row : OutcomeRec) (h : ∃ x ∈ acc, x.execId = row.execId) :
    insertOutcomeUnique acc row = acc := by
  unfold insertOutcomeUnique
  obtain ⟨x, hx, hxe⟩ := h
  have hany : (acc.any fun y => y.execId == row.execId) = true :=
    List.any_eq_true.mpr ⟨x, hx, beq_iff_eq.mpr hxe⟩
  rw [if_pos hany]

theorem evalStep_eq_or (cal : Int → Bool) (close : String → Int → Option ℚ)
    (tzOffset : Int → Int) (nowUtc : Int) (acc : List OutcomeRec)
    (e : ExecRec) :
    evalStep cal close tzOffset nowUtc acc e = acc ∨
    ∃ row : OutcomeRec, row.execId = e.id ∧
      evalStep cal close tzOffset nowUtc acc e =
        insertOutcomeUnique acc row := by
  unfold evalStep
  cases hc : computeOutcomePrices cal close
      (toEtSessionDate tzOffset e.createdAt) e.ticker with
  | error m => exact Or.inl rfl
  | ok p => exact Or.inr ⟨_, rfl, rfl⟩

theorem evalRun_nodup (cal : Int → Bool) (close : String → Int → Option ℚ)
    (tzOffset : Int → Int) (nowUtc : Int) (execs : List ExecRec)
    (outs : List OutcomeRec) (h : (outs.map (fun x => x.execId)).Nodup) :
    ((evalRun cal close tzOffset nowUtc execs outs).map
      (fun x => x.execId)).Nodup :=
  foldl_evalStep_nodup cal close tzOffset nowUtc _ outs h

theorem tradingSessions_sorted (cal : Int → Bool) (a b : Int) :
    (tradingSessions cal a b).Pairwise (· < ·) := by
  unfold tradingSessions
  apply List.Pairwise.filter
  exact List.Pairwise.map _ (fun i j hij => by omega)
    (List.pairwise_lt_range _)

theorem tradingSessions_mem (cal : Int → Bool) (a b x : Int) :
    x ∈ tradingSessions cal a b ↔ a ≤ x ∧ x ≤ b ∧ cal x = true := by
  unfold tradingSessions
  rw [List.mem_filter]
  constructor
  · rintro ⟨hmem, hcal⟩
    obtain ⟨k, hk, rfl⟩ := List.mem_map.mp hmem
    rw [List.mem_range] at hk
    exact ⟨by omega, by omega, hcal⟩
  · rintro ⟨h1, h2, h3⟩
    refine ⟨List.mem_map.mpr ⟨(x - a).toNat, List.mem_range.mpr (by omega),
      by omega⟩, h3⟩

theorem sorted_head_le {l : List Int} (h : l.Pairwise (· < ·)) (x : Int)
    (hx : l.head? = some x) : ∀ y ∈ l, x ≤ y := by
  cases l with
  | nil => simp at hx
  | cons a t =>
      injection hx with hax
      subst hax
      intro y hy
      rcases List.mem_cons.mp hy with rfl | hyt
      · exact le_refl _
      · exact le_of_lt ((List.pairwise_cons.mp h).1 y hyt)

theorem head?_mem_cons {l : List Int} {x : Int} (h : l.head? = some x) :
    x ∈ l := by
  cases l with
  | nil => simp at h
  | cons a t =>
      injection h with h1
      subst h1
      exact List.mem_cons_self a t

theorem getElem?_indexOf_self {l : List Int} {x : Int} (h : x ∈ l) :
    l[l.indexOf x]? = some x := by
  have hlt : l.indexOf x < l.length := List.indexOf_lt_length.mpr h
  rw [List.getElem?_eq_getElem hlt, List.getElem_indexOf hlt]

/-! ## Claim theorems -/

/-- C3: whenever the configured trading mode (the `TRADING_MODE`
environment value, stripped and lowercased) is not `"paper"`,
`IBExecutor.connect` raises before touching the broker, so no session
is acquired — for either value of the dry-run flag, which the check
never consults. -/
theorem connect_rejects_nonpaper_mode (env : Option String) (dryRun : Bool)
    (connectAsync : Except String Unit)
    (h : pyLower (pyStrip (env.getD "paper")) ≠ "paper") :
    (∃ m, ibConnect env dryRun connectAsync = Except.error m) ∧
    (∀ (d : Bool) (ca ca' : Except String Unit),
      ibConnect env d ca = ibConnect env dryRun ca') := by
  have hg : connectGuard env =
      Except.error ("TRADING_MODE must be paper, got " ++ env.getD "paper") := by
    unfold connectGuard
    rw [if_pos h]
  constructor
  · refine ⟨"TRADING_MODE must be paper, got " ++ env.getD "paper", ?_⟩
    unfold ibConnect
    rw [hg]
  · intro d ca ca'
    unfold ibConnect
    rw [hg]

/-- C3 witness: with `TRADING_MODE=live` and `dry_run = true` the
connect step fails. -/
theorem connect_rejects_nonpaper_mode_witness :
    pyLower (pyStrip ((some "live").getD "paper")) ≠ "paper" ∧
    ((∃ m, ibConnect (some "live") true (Except.ok ()) = Except.error m) ∧
      (∀ (d : Bool) (ca ca' : Except String Unit),
        ibConnect (some "live") d ca = ibConnect (some "live") true ca')) :=
  ⟨by decide, connect_rejects_nonpaper_mode (some "live") true (Except.ok ())
    (by decide)⟩

/-- C5 counterexample: the claim says `"aapl"` normalizes to
"no ticker", but `_normalize_ticker` uppercases before matching, so
`"aapl"` is accepted as `"AAPL"`. -/
theorem normalizeTicker_accepts_lowercase :
    normalizeTicker (some (Json.str "aapl")) = some "AAPL" ∧
    normalizeTicker (some (Json.str "aapl")) ≠ none := by
  constructor
  · decide
  · decide

/-- C5 (amended): `"123"`, `""` and `null` normalize to "no ticker",
`"AAPL"` and `"BRK.B"` are accepted, but `"aapl"` is accepted as
`"AAPL"` because the value is stripped and uppercased before the
pattern test; in general a value is accepted exactly when it is a
string whose stripped, uppercased form matches the pattern of 1–6
uppercase letters optionally followed by `.` or `-` and 1–4 uppercase
letters (and the accepted ticker is that normalized form). -/
theorem normalizeTicker_spec :
    normalizeTicker (some (Json.str "aapl")) = some "AAPL" ∧
    normalizeTicker (some (Json.str "123")) = none ∧
    normalizeTicker (some (Json.str "")) = none ∧
    normalizeTicker (some Json.null) = none ∧
    normalizeTicker none = none ∧
    normalizeTicker (some (Json.str "AAPL")) = some "AAPL" ∧
    normalizeTicker (some (Json.str "BRK.B")) = some "BRK.B" ∧
    (∀ s : String,
      normalizeTicker (some (Json.str s)) =
        if tickerReMatch (pyUpper (pyStrip s)) then some (pyUpper (pyStrip s))
        else none) ∧
    (∀ (v : Option Json) (r : String), normalizeTicker v = some r →
      (∃ s, v = some (Json.str s)) ∧ tickerReMatch r = true ∧
        specTickerPattern r) := by
  refine ⟨by decide, by decide, by decide, by decide, by decide, by decide,
    by decide, ?_, ?_⟩
  · intro s
    show (if pyUpper (pyStrip s) = "" then none
          else if !tickerReMatch (pyUpper (pyStrip s)) then none
          else some (pyUpper (pyStrip s))) =
        if tickerReMatch (pyUpper (pyStrip s)) then some (pyUpper (pyStrip s))
        else none
    by_cases h0 : pyUpper (pyStrip s) = ""
    · rw [h0]
      simp [tickerReMatch_empty]
    · rw [if_neg h0]
      cases hm : tickerReMatch (pyUpper (pyStrip s)) <;> simp [hm]
  · intro v r h
    match v with
    | none => exact absurd h (by simp [normalizeTicker])
    | some Json.null => exact absurd h (by simp [normalizeTicker])
    | some (Json.bool b) => exact absurd h (by simp [normalizeTicker])
    | some (Json.num q) => exact absurd h (by simp [normalizeTicker])
    | some (Json.arr l) => exact absurd h (by simp [normalizeTicker])
    | some (Json.obj f) => exact absurd h (by simp [normalizeTicker])
    | some (Json.str s) =>
        refine ⟨⟨s, rfl⟩, ?_⟩
        have h' : (if pyUpper (pyStrip s) = "" then none
            else if !tickerReMatch (pyUpper (pyStrip s)) then none
            else some (pyUpper (pyStrip s))) = some r := h
        by_cases h0 : pyUpper (pyStrip s) = ""
        · rw [if_pos h0] at h'
          exact absurd h' (by simp)
        · rw [if_neg h0] at h'
          cases hm : tickerReMatch (pyUpper (pyStrip s)) with
          | false => rw [hm] at h'; simp at h'
          | true =>
              rw [hm] at h'
              simp only [Bool.not_true, Bool.false_eq_true, if_false,
                Option.some.injEq] at h'
              subst h'
              exact ⟨hm, (tickerReMatch_iff_spec _).mp hm⟩

/-- C4: the claim says the UTC day start is computed once per run and
shared by signal selection and the daily-cap count.  In the code it is
computed twice from two fresh `_utc_now()` reads (main.py lines
199–200 and 251–252); on a run whose reads straddle UTC midnight the
two components use different day boundaries, as this evaluation at the
failing input shows. -/
theorem dayStart_computed_twice_diverges :
    selectionDayStart midnightClock ≠ capDayStart midnightClock := by
  decide

/-- C2: when the persisted `trade_execution` table already holds at
least `max_daily_trades` rows with `created_at` at or after the run's
UTC day start, the run rejects: the broker step is never entered and
the table is unchanged, whatever the candidate's score, the broker
oracle, or the environment.  The count in the hypothesis is exactly
`count_executions_since` over the persisted table. -/
theorem risk_gate_daily_cap (env : Option String) (o : BrokerOracle)
    (top1Ticker : Option String) (score minSent : ℚ) (maxDaily : Int)
    (amt : ℚ) (dr : Bool) (now : Nat) (db : List ExecRow)
    (h : maxDaily ≤ (countExecutionsSince db (pyDayStartUtc now) : Int)) :
    runTradePhase env o top1Ticker score minSent maxDaily amt dr now db =
      (db, false) := by
  cases top1Ticker with
  | none => rfl
  | some tk =>
      by_cases hs : score < minSent
      · simp [runTradePhase, hs]
      · simp [runTradePhase, hs, h]

/-- C2 witness: with `max_daily_trades = 1` and one execution already
recorded today, a later run the same UTC day rejects even a perfect
candidate (score 1 against threshold 0) and writes nothing. -/
theorem risk_gate_daily_cap_witness :
    (1 : Int) ≤ (countExecutionsSince dbOneToday (pyDayStartUtc 60000) : Int) ∧
    runTradePhase none brokerAllOk (some "NVDA") 1 0 1 40 true 60000
      dbOneToday = (dbOneToday, false) :=
  ⟨by decide,
    risk_gate_daily_cap none brokerAllOk (some "NVDA") 1 0 1 40 true 60000
      dbOneToday (by decide)⟩

/-- C1 counterexample: the claim says that when a broker step raises,
the audit row's `error` field is populated with the exception message.
With a buy that raises an exception whose message is empty (for
example `asyncio.TimeoutError()`), `error or snapshot_err` evaluates
to `None` — the single audit row is written with `error` null. -/
theorem audit_row_empty_error_message :
    brokerEmptyMsg.buy = Except.error "" ∧
    runTradePhase none brokerEmptyMsg (some "NVDA") 1 0 1 40 true 1000 [] =
      ([{ ticker := "NVDA", amountUsd := 40, price := none, qty := none,
          dryRun := true, orderStatus := none, error := none,
          createdAt := 1000 }], true) := by
  exact ⟨rfl, by decide⟩

/-- C1 (amended): for every run in which the risk gate approves and
the broker step is entered, exactly one Execution audit row is
inserted before the run exits, on every code path.  If the broker buy
returns a result, the row carries its price, qty and order_status
(`error` may still be set, from a snapshot failure or a raising
disconnect).  If connect or the buy raises, the row has price and qty
null and `error` equal to the propagated exception message when that
message is non-empty, otherwise the snapshot step's error message
when the snapshot failed, otherwise null (`pyOrStr` is Python's
`error or snapshot_err`; a raising disconnect replaces the buy's
exception message). -/
theorem execution_audit_row_characterization (env : Option String)
    (o : BrokerOracle) (tk : String) (score minSent : ℚ) (maxDaily : Int)
    (amt : ℚ) (dr : Bool) (now : Nat) (db : List ExecRow)
    (hs : ¬score < minSent)
    (hcap : (countExecutionsSince db (pyDayStartUtc now) : Int) < maxDaily) :
    ∃ row : ExecRow,
      runTradePhase env o (some tk) score minSent maxDaily amt dr now db =
        (db ++ [row], true) ∧
      row.ticker = tk ∧ row.amountUsd = amt ∧ row.dryRun = dr ∧
      row.createdAt = now ∧
      (∀ r : BuyResult, ibConnect env dr o.connectAsync = Except.ok () →
        o.buy = Except.ok r →
        row.price = some r.price ∧ row.qty = some r.qty ∧
        row.orderStatus = r.orderStatus ∧
        row.error = pyOrStr o.disconnect (snapErrOf o)) ∧
      (∀ m : String, ibConnect env dr o.connectAsync = Except.error m →
        row.price = none ∧ row.qty = none ∧ row.orderStatus = none ∧
        row.error = pyOrStr (some m) none) ∧
      (∀ bm : String, ibConnect env dr o.connectAsync = Except.ok () →
        o.buy = Except.error bm →
        row.price = none ∧ row.qty = none ∧ row.orderStatus = none ∧
        row.error = pyOrStr (some (o.disconnect.getD bm)) (snapErrOf o)) := by
  have hgate : runTradePhase env o (some tk) score minSent maxDaily amt dr
      now db = (runExecutionPhase env o tk amt dr now db, true) := by
    simp [runTradePhase, hs, not_le.mpr hcap]
  cases hconn : ibConnect env dr o.connectAsync with
  | error m =>
      refine ⟨{ ticker := tk, amountUsd := amt, price := none, qty := none,
                dryRun := dr, orderStatus := none,
                error := pyOrStr (some m) none, createdAt := now },
        ?_, rfl, rfl, rfl, rfl, ?_, ?_, ?_⟩
      · rw [hgate]
        unfold runExecutionPhase
        rw [hconn]
      · intro r hok _
        exact absurd hok (by simp)
      · intro m' hm'
        injection hm' with hmeq
        subst hmeq
        exact ⟨rfl, rfl, rfl, rfl⟩
      · intro bm hok _
        exact absurd hok (by simp)
  | ok u =>
      cases u
      cases hbuy : o.buy with
      | ok r =>
          refine ⟨{ ticker := tk, amountUsd := amt, price := some r.price,
                    qty := some r.qty, dryRun := dr,
                    orderStatus := r.orderStatus,
                    error := pyOrStr o.disconnect (snapErrOf o),
                    createdAt := now },
            ?_, rfl, rfl, rfl, rfl, ?_, ?_, ?_⟩
          · rw [hgate]
            unfold runExecutionPhase
            rw [hconn, hbuy]
          · intro r' _ hbuy'
            injection hbuy' with hreq
            subst hreq
            exact ⟨rfl, rfl, rfl, rfl⟩
          · intro m hm
            exact absurd hm (by simp)
          · intro bm _ hb
            exact absurd hb (by simp)
      | error bm =>
          refine ⟨{ ticker := tk, amountUsd := amt, price := none,
                    qty := none, dryRun := dr, orderStatus := none,
                    error := pyOrStr (some (o.disconnect.getD bm))
                      (snapErrOf o),
                    createdAt := now },
            ?_, rfl, rfl, rfl, rfl, ?_, ?_, ?_⟩
          · rw [hgate]
            unfold runExecutionPhase
            rw [hconn, hbuy]
            cases o.disconnect <;> rfl
          · intro r _ hbuy'
            exact absurd hbuy' (by simp)
          · intro m hm
            exact absurd hm (by simp)
          · intro bm' _ hb
            injection hb with hbeq
            subst hbeq
            exact ⟨rfl, rfl, rfl, rfl⟩

/-- C1 (amended) witness: a run with everything succeeding appends
exactly one row. -/
theorem execution_audit_row_characterization_witness :
    ¬(1 : ℚ) < 0 ∧
    ((countExecutionsSince [] (pyDayStartUtc 1000) : Int) < 1) ∧
    (∃ row : ExecRow,
      runTradePhase none brokerAllOk (some "NVDA") 1 0 1 40 true 1000 [] =
        ([] ++ [row], true) ∧
      row.ticker = "NVDA" ∧ row.amountUsd = 40 ∧ row.dryRun = true ∧
      row.createdAt = 1000 ∧
      (∀ r : BuyResult,
        ibConnect none true brokerAllOk.connectAsync = Except.ok () →
        brokerAllOk.buy = Except.ok r →
        row.price = some r.price ∧ row.qty = some r.qty ∧
        row.orderStatus = r.orderStatus ∧
        row.error = pyOrStr brokerAllOk.disconnect (snapErrOf brokerAllOk)) ∧
      (∀ m : String,
        ibConnect none true brokerAllOk.connectAsync = Except.error m →
        row.price = none ∧ row.qty = none ∧ row.orderStatus = none ∧
        row.error = pyOrStr (some m) none) ∧
      (∀ bm : String,
        ibConnect none true brokerAllOk.connectAsync = Except.ok () →
        brokerAllOk.buy = Except.error bm →
        row.price = none ∧ row.qty = none ∧ row.orderStatus = none ∧
        row.error = pyOrStr (some (brokerAllOk.disconnect.getD bm))
          (snapErrOf brokerAllOk))) :=
  ⟨by decide, by decide,
    execution_audit_row_characterization none brokerAllOk "NVDA" 1 0 1 40
      true 1000 [] (by decide) (by decide)⟩

/-- C9: if the best-effort snapshot step raises with message `m` and
the broker buy then succeeds, the single audit row carries the
result's price, qty and order_status together with `error = m` — a
row describing a successful trade can carry an error.  In general a
successful buy's row has `error = disconnect-error or snapshot-error`
(Python `or`): the trade error, if any, takes precedence over the
snapshot error. -/
theorem snapshot_error_on_successful_trade (env : Option String)
    (o : BrokerOracle) (tk : String) (amt : ℚ) (dr : Bool) (now : Nat)
    (db : List ExecRow) (m : String) (r : BuyResult)
    (hconn : ibConnect env dr o.connectAsync = Except.ok ())
    (hsnap : o.snapshot = Except.error m)
    (hbuy : o.buy = Except.ok r)
    (hdisc : o.disconnect = none) :
    (runExecutionPhase env o tk amt dr now db =
      db ++ [{ ticker := tk, amountUsd := amt, price := some r.price,
               qty := some r.qty, dryRun := dr,
               orderStatus := r.orderStatus, error := some m,
               createdAt := now }]) ∧
    (∀ (o₂ : BrokerOracle) (r₂ : BuyResult),
      ibConnect env dr o₂.connectAsync = Except.ok () →
      o₂.buy = Except.ok r₂ →
      ∃ row : ExecRow, runExecutionPhase env o₂ tk amt dr now db =
        db ++ [row] ∧
        row.error = pyOrStr o₂.disconnect (snapErrOf o₂) ∧
        row.price = some r₂.price) := by
  constructor
  · unfold runExecutionPhase
    rw [hconn]
    simp [snapErrOf, hsnap, hbuy, hdisc, pyOrStr]
  · intro o₂ r₂ hc hb
    refine ⟨{ ticker := tk, amountUsd := amt, price := some r₂.price,
              qty := some r₂.qty, dryRun := dr,
              orderStatus := r₂.orderStatus,
              error := pyOrStr o₂.disconnect (snapErrOf o₂),
              createdAt := now }, ?_, rfl, rfl⟩
    unfold runExecutionPhase
    rw [hc, hb]

/-- C9 witness: snapshot fails with "snapshot boom", the dry-run buy
succeeds; the audit row records the successful fill and the snapshot
error. -/
theorem snapshot_error_on_successful_trade_witness :
    brokerSnapFail.snapshot = Except.error "snapshot boom" ∧
    brokerSnapFail.buy = Except.ok buyResultEx ∧
    ((runExecutionPhase none brokerSnapFail "NVDA" 40 true 1000 [] =
      [] ++ [{ ticker := "NVDA", amountUsd := 40,
               price := some buyResultEx.price,
               qty := some buyResultEx.qty, dryRun := true,
               orderStatus := buyResultEx.orderStatus,
               error := some "snapshot boom", createdAt := 1000 }]) ∧
    (∀ (o₂ : BrokerOracle) (r₂ : BuyResult),
      ibConnect none true o₂.connectAsync = Except.ok () →
      o₂.buy = Except.ok r₂ →
      ∃ row : ExecRow,
        runExecutionPhase none o₂ "NVDA" 40 true 1000 [] = [] ++ [row] ∧
        row.error = pyOrStr o₂.disconnect (snapErrOf o₂) ∧
        row.price = some r₂.price)) :=
  ⟨rfl, rfl,
    snapshot_error_on_successful_trade none brokerSnapFail "NVDA" 40 true
      1000 [] "snapshot boom" buyResultEx rfl rfl rfl rfl⟩

/-- C10: when a batch response parses as a JSON array of exactly the
batch length, the batch succeeds whatever the elements are; an
element that is not a JSON object is normalized as if every field
were absent — ticker `None`, sentiment `0.0`, empty summary, empty
risk tags. -/
theorem nonobject_element_normalizes_empty :
    (∀ j : Json, j.isObj = false →
      normalizeElement j =
        { ticker := none, sentiment := 0, summary := "", riskTags := [] }) ∧
    (∀ (oracle : List String → Except String (List Json))
      (titles : List String) (parsed : List Json),
      oracle titles = Except.ok parsed →
      parsed.length = titles.length →
      analyzeBatchModel oracle titles =
        Except.ok (parsed.map normalizeElement)) := by
  constructor
  · intro j hj
    cases j <;> first
      | rfl
      | simp [Json.isObj] at hj
  · intro oracle titles parsed h1 h2
    unfold analyzeBatchModel
    rw [h1]
    simp [h2]

/-- C10 witness: a one-title batch answered with the single
non-object element `5` succeeds and yields the all-defaults signal. -/
theorem nonobject_element_normalizes_empty_witness :
    (Json.num 5).isObj = false ∧
    normalizeElement (Json.num 5) =
      { ticker := none, sentiment := 0, summary := "", riskTags := [] } ∧
    analyzeBatchModel oracleNonObject ["hello"] =
      Except.ok ([Json.num 5].map normalizeElement) :=
  ⟨rfl, nonobject_element_normalizes_empty.1 (Json.num 5) rfl,
    nonobject_element_normalizes_empty.2 oracleNonObject ["hello"]
      [Json.num 5] rfl rfl⟩

/-- C7: `analyze_titles` output is never longer than its input; each
fixed-size batch contributes either exactly its own length of
normalized signals (success) or exactly zero (failure — a length
mismatch or unparseable response fails only that batch), and the
overall output is the in-order concatenation of the per-batch
contributions, so one batch's failure never affects the others. -/
theorem analyzer_batch_isolation
    (oracle : List String → Except String (List Json)) (bs : Nat)
    (titles : List String) (hbs : 0 < bs) :
    (analyzeTitles oracle bs titles).length ≤ titles.length ∧
    (∀ b ∈ chunks bs titles,
      (batchContribution oracle b).length = 0 ∨
        (batchContribution oracle b).length = b.length) ∧
    (∀ (b : List String) (e : String),
      analyzeBatchModel oracle b = Except.error e →
      batchContribution oracle b = []) ∧
    analyzeTitles oracle bs titles =
      (chunks bs titles).foldr
        (fun b acc => batchContribution oracle b ++ acc) [] := by
  refine ⟨?_, fun b _ => batchContribution_length oracle b, ?_, rfl⟩
  · calc (analyzeTitles oracle bs titles).length ≤
        ((chunks bs titles).foldr (fun b acc => b ++ acc) []).length :=
          foldr_contribution_length_le oracle (chunks bs titles)
      _ = titles.length := by rw [chunks_flatten bs hbs titles]
  · intro b e he
    unfold batchContribution
    rw [he]

/-- C7 witness: four titles in batches of two, the first batch
failing; the second batch still contributes its two signals. -/
theorem analyzer_batch_isolation_witness :
    0 < 2 ∧
    ((analyzeTitles oracleFailFirst 2 ["t1", "t2", "t3", "t4"]).length ≤
      (["t1", "t2", "t3", "t4"] : List String).length ∧
    (∀ b ∈ chunks 2 ["t1", "t2", "t3", "t4"],
      (batchContribution oracleFailFirst b).length = 0 ∨
        (batchContribution oracleFailFirst b).length = b.length) ∧
    (∀ (b : List String) (e : String),
      analyzeBatchModel oracleFailFirst b = Except.error e →
      batchContribution oracleFailFirst b = []) ∧
    analyzeTitles oracleFailFirst 2 ["t1", "t2", "t3", "t4"] =
      (chunks 2 ["t1", "t2", "t3", "t4"]).foldr
        (fun b acc => batchContribution oracleFailFirst b ++ acc) []) :=
  ⟨by decide,
    analyzer_batch_isolation oracleFailFirst 2 ["t1", "t2", "t3", "t4"]
      (by decide)⟩

/-- C6: any number of evaluator runs inserts at most one Outcome row
per Execution — starting from a table whose `trade_execution_id`s are
distinct, they stay distinct after `n` runs.  Moreover a uniqueness
conflict is treated as "already computed": the per-execution step
leaves the table unchanged (and the fold continues with the remaining
executions), and the candidate query already filters out executions
that have an outcome. -/
theorem outcome_idempotence (cal : Int → Bool)
    (close : String → Int → Option ℚ) (tzOffset : Int → Int) (nowUtc : Int)
    (execs : List ExecRec) (outs : List OutcomeRec) (n : Nat)
    (h : (outs.map (fun x => x.execId)).Nodup) :
    ((((fun o => evalRun cal close tzOffset nowUtc execs o)^[n] outs).map
      (fun x => x.execId)).Nodup) ∧
    (∀ (acc : List OutcomeRec) (e : ExecRec),
      (∃ x ∈ acc, x.execId = e.id) →
      evalStep cal close tzOffset nowUtc acc e = acc) ∧
    (∀ e ∈ evalCandidates execs outs nowUtc, ∀ o ∈ outs,
      o.execId ≠ e.id) := by
  refine ⟨?_, ?_, ?_⟩
  · induction n generalizing outs with
    | zero => exact h
    | succ k ih =>
        rw [Function.iterate_succ_apply]
        exact ih _ (evalRun_nodup cal close tzOffset nowUtc execs outs h)
  · rintro acc e ⟨x, hx, hxe⟩
    rcases evalStep_eq_or cal close tzOffset nowUtc acc e with
      hcase | ⟨row, hrow, heq⟩
    · exact hcase
    · rw [heq]
      exact insertOutcomeUnique_mem_eq acc row ⟨x, hx, by rw [hxe, hrow]⟩
  · intro e he o ho heq
    have hmem := List.mem_of_mem_take he
    rw [List.mem_filter] at hmem
    obtain ⟨-, hcond⟩ := hmem
    rw [Bool.and_eq_true] at hcond
    obtain ⟨-, hneg⟩ := hcond
    rw [Bool.not_eq_true'] at hneg
    have hall := List.any_eq_false.mp hneg
    exact hall o ho (beq_iff_eq.mpr heq)

/-- C6 witness: two evaluator runs over one pending execution starting
from an empty outcome table keep `trade_execution_id` unique. -/
theorem outcome_idempotence_witness :
    (([] : List OutcomeRec).map (fun x => x.execId)).Nodup ∧
    (((((fun o => evalRun calAlwaysOpen closeAllOne tzEst 200000 [execRecEx]
        o)^[2] []).map (fun x => x.execId)).Nodup) ∧
    (∀ (acc : List OutcomeRec) (e : ExecRec),
      (∃ x ∈ acc, x.execId = e.id) →
      evalStep calAlwaysOpen closeAllOne tzEst 200000 acc e = acc) ∧
    (∀ e ∈ evalCandidates [execRecEx] [] 200000, ∀ o ∈ ([] : List OutcomeRec),
      o.execId ≠ e.id)) :=
  ⟨by simp,
    outcome_idempotence calAlwaysOpen closeAllOne tzEst 200000 [execRecEx]
      [] 2 (by simp)⟩

/-- C8: whenever `compute_outcome_prices` succeeds, the (possibly
advanced) entry session sits at some index `i` of the ordered session
window, `T+3` and `T+7` are the sessions at indices `i+3` and `i+7`,
the entry session is the ET calendar date of the execution when that
date is a session and otherwise the least session after it, and the
six returned closes come from the price oracle at exactly those
sessions.  When the window does not extend far enough (or any other
step fails), the evaluator skips the execution — the outcome table is
unchanged, the run continues, and the execution remains outcome-less
for a later run.  On success the evaluator calls the computation at
the ET session date of the execution timestamp. -/
theorem session_alignment :
    (∀ (cal : Int → Bool) (close : String → Int → Option ℚ) (e0 : Int)
      (sym : String) (p : OutcomePrices),
      computeOutcomePrices cal close e0 sym = Except.ok p →
      ∃ (entry t3 t7 : Int) (i : Nat),
        (tradingSessions cal (e0 - 7) (e0 + 20))[i]? = some entry ∧
        (tradingSessions cal (e0 - 7) (e0 + 20))[i + 3]? = some t3 ∧
        (tradingSessions cal (e0 - 7) (e0 + 20))[i + 7]? = some t7 ∧
        (cal e0 = true → entry = e0) ∧
        (cal e0 = false → e0 < entry ∧
          ∀ s ∈ tradingSessions cal (e0 - 7) (e0 + 20), e0 < s →
            entry ≤ s) ∧
        close sym entry = some p.entryClose ∧
        close sym t3 = some p.t3Close ∧
        close sym t7 = some p.t7Close ∧
        close "SPY" entry = some p.spyEntryClose ∧
        close "SPY" t3 = some p.spyT3Close ∧
        close "SPY" t7 = some p.spyT7Close) ∧
    (∀ (cal : Int → Bool) (close : String → Int → Option ℚ)
      (tzOffset : Int → Int) (nowUtc : Int) (outs : List OutcomeRec)
      (e : ExecRec) (msg : String),
      computeOutcomePrices cal close (toEtSessionDate tzOffset e.createdAt)
        e.ticker = Except.error msg →
      evalStep cal close tzOffset nowUtc outs e = outs) ∧
    (∀ (cal : Int → Bool) (close : String → Int → Option ℚ)
      (tzOffset : Int → Int) (nowUtc : Int) (outs : List OutcomeRec)
      (e : ExecRec) (p : OutcomePrices),
      computeOutcomePrices cal close (toEtSessionDate tzOffset e.createdAt)
        e.ticker = Except.ok p →
      evalStep cal close tzOffset nowUtc outs e =
        insertOutcomeUnique outs
          { execId := e.id
            ticker := e.ticker
            entrySession := toEtSessionDate tzOffset e.createdAt
            entryClose := p.entryClose
            t3Close := p.t3Close
            t7Close := p.t7Close
            t3Return := simpleReturn p.entryClose p.t3Close
            t7Return := simpleReturn p.entryClose p.t7Close
            spyT3Return := simpleReturn p.spyEntryClose p.spyT3Close
            spyT7Return := simpleReturn p.spyEntryClose p.spyT7Close
            computedAt := nowUtc }) := by
  refine ⟨?_, ?_, ?_⟩
  · intro cal close e0 sym p h
    simp only [computeOutcomePrices] at h
    split at h
    · exact absurd h (by simp)
    · rename_i entry heq
      split at h
      · rename_i t3 t7 heq3 heq7
        split at h
        · rename_i a b c d e f hca hcb hcc hcd hce hcf
          injection h with hp
          subst hp
          have hentrymem : entry ∈ tradingSessions cal (e0 - 7) (e0 + 20) := by
            by_cases hcal : cal e0 = true
            · have hmem : e0 ∈ tradingSessions cal (e0 - 7) (e0 + 20) :=
                (tradingSessions_mem cal _ _ e0).mpr
                  ⟨by omega, by omega, hcal⟩
              rw [if_pos (List.elem_iff.mpr hmem)] at heq
              injection heq with heq1
              subst heq1
              exact hmem
            · have hnot : e0 ∉ tradingSessions cal (e0 - 7) (e0 + 20) := by
                intro hmem
                exact hcal ((tradingSessions_mem cal _ _ e0).mp hmem).2.2
              have hcont : (tradingSessions cal (e0 - 7) (e0 + 20)).contains
                  e0 ≠ true := fun hc => hnot (List.elem_iff.mp hc)
              rw [if_neg hcont] at heq
              exact List.mem_of_mem_filter (head?_mem_cons heq)
          refine ⟨entry, t3, t7,
            (tradingSessions cal (e0 - 7) (e0 + 20)).indexOf entry,
            getElem?_indexOf_self hentrymem, heq3, heq7, ?_, ?_,
            hca, hcb, hcc, hcd, hce, hcf⟩
          · intro hcal
            have hmem : e0 ∈ tradingSessions cal (e0 - 7) (e0 + 20) :=
              (tradingSessions_mem cal _ _ e0).mpr
                ⟨by omega, by omega, hcal⟩
            rw [if_pos (List.elem_iff.mpr hmem)] at heq
            injection heq with heq1
            exact heq1.symm
          · intro hcal
            have hnot : e0 ∉ tradingSessions cal (e0 - 7) (e0 + 20) := by
              intro hmem
              rw [((tradingSessions_mem cal _ _ e0).mp hmem).2.2] at hcal
              exact absurd hcal (by simp)
            have hcont : (tradingSessions cal (e0 - 7) (e0 + 20)).contains
                e0 ≠ true := fun hc => hnot (List.elem_iff.mp hc)
            rw [if_neg hcont] at heq
            have hfmem := head?_mem_cons heq
            rw [List.mem_filter] at hfmem
            constructor
            · exact of_decide_eq_true hfmem.2
            · intro s hs hls
              have hsorted : ((tradingSessions cal (e0 - 7)
                  (e0 + 20)).filter (fun s => decide (e0 < s))).Pairwise
                  (· < ·) :=
                List.Pairwise.filter _ (tradingSessions_sorted cal _ _)
              exact sorted_head_le hsorted entry heq s
                (List.mem_filter.mpr ⟨hs, decide_eq_true hls⟩)
        · exact absurd h (by simp)
      · exact absurd h (by simp)
  · intro cal close tzOffset nowUtc outs e msg h
    unfold evalStep
    rw [h]
  · intro cal close tzOffset nowUtc outs e p h
    unfold evalStep
    rw [h]

/-- C8 witness: with every date a session and every close equal to 1,
an execution at the Unix epoch (ET date −1) evaluates successfully
with aligned sessions; with an empty calendar the evaluator skips the
execution and leaves the outcome table unchanged. -/
theorem session_alignment_witness :
    computeOutcomePrices calAlwaysOpen closeAllOne (-1) "NVDA" =
      Except.ok ⟨1, 1, 1, 1, 1, 1⟩ ∧
    (∃ (entry t3 t7 : Int) (i : Nat),
      (tradingSessions calAlwaysOpen (-1 - 7) (-1 + 20))[i]? = some entry ∧
      (tradingSessions calAlwaysOpen (-1 - 7) (-1 + 20))[i + 3]? = some t3 ∧
      (tradingSessions calAlwaysOpen (-1 - 7) (-1 + 20))[i + 7]? = some t7 ∧
      (calAlwaysOpen (-1) = true → entry = -1) ∧
      (calAlwaysOpen (-1) = false → -1 < entry ∧
        ∀ s ∈ tradingSessions calAlwaysOpen (-1 - 7) (-1 + 20), -1 < s →
          entry ≤ s) ∧
      closeAllOne "NVDA" entry = some (OutcomePrices.entryClose ⟨1, 1, 1, 1, 1, 1⟩) ∧
      closeAllOne "NVDA" t3 = some (OutcomePrices.t3Close ⟨1, 1, 1, 1, 1, 1⟩) ∧
      closeAllOne "NVDA" t7 = some (OutcomePrices.t7Close ⟨1, 1, 1, 1, 1, 1⟩) ∧
      closeAllOne "SPY" entry = some (OutcomePrices.spyEntryClose ⟨1, 1, 1, 1, 1, 1⟩) ∧
      closeAllOne "SPY" t3 = some (OutcomePrices.spyT3Close ⟨1, 1, 1, 1, 1, 1⟩) ∧
      closeAllOne "SPY" t7 = some (OutcomePrices.spyT7Close ⟨1, 1, 1, 1, 1, 1⟩)) ∧
    evalStep calNeverOpen closeNone tzEst 200000 [] execRecEx = [] :=
  ⟨rfl,
    session_alignment.1 calAlwaysOpen closeAllOne (-1) "NVDA"
      ⟨1, 1, 1, 1, 1, 1⟩ rfl,
    session_alignment.2.1 calNeverOpen closeNone tzEst 200000 [] execRecEx
      "no next trading session" rfl⟩

end Trading
